import Mathlib

/-!
# WAL reader and table-sink operator of the ingestion path

A shallow embedding of

* `be/src/vec/exec/format/wal/wal_reader.cpp`
  (`WalReader::get_columns`, `WalReader::get_next_block`), and
* `be/src/pipeline/exec/olap_table_sink_v2_operator.h`
  (`OlapTableSinkV2Operator::can_write`, `OlapTableSinkV2LocalState`),

followed by the properties established about them.

Conventions of the embedding:

* a `std::string` is a `List Char` (one `Char` per byte);
* a `Status` is its error code together with its message;
* the results of the collaborators that perform I/O (`read_header`,
  `read_block`, `Block::deserialize`, the asynchronous writer) are inputs of
  the embedded functions;
* a `CHECK` failure, an out-of-range `get_by_position` and an out-of-range
  `Block::insert` end the call without a result: the embedded function
  returns `none` there.
-/

namespace doris

/-! ## Status -/

/-- Error codes of `Status` that the embedded code distinguishes; every other
code is `OTHER n`. -/
inductive ErrorCode where
  | OK
  | END_OF_FILE
  | INVALID_ARGUMENT
  | OTHER (n : Nat)
  deriving DecidableEq, Repr

/-- A `Status`: an error code and a message. -/
structure Status where
  code : ErrorCode
  msg : String
  deriving DecidableEq, Repr

/-- `Status::OK()`. -/
def Status.OK : Status := ⟨ErrorCode.OK, ""⟩

/-- `Status::InvalidArgument(msg)`. -/
def Status.InvalidArgument (msg : String) : Status := ⟨ErrorCode.INVALID_ARGUMENT, msg⟩

/-- `st.ok()`. -/
def Status.ok (st : Status) : Bool := decide (st.code = ErrorCode.OK)

/-- `st.is<code>()`. -/
def Status.is (st : Status) (code : ErrorCode) : Bool := decide (st.code = code)

/-! ## Text helpers used by `get_columns` -/

/-- The C locale `isspace` (also gutil's `ascii_isspace`): space, `\t`, `\n`,
`\v`, `\f`, `\r`. -/
def isspace (c : Char) : Bool :=
  c.toNat = 32 || (9 ≤ c.toNat && c.toNat ≤ 13)

/-- The C `isdigit`. -/
def isdigit (c : Char) : Bool :=
  48 ≤ c.toNat && c.toNat ≤ 57

/-- Splitting at every occurrence of the delimiter `","`; the pieces are not
trimmed, and a text without a comma is one piece. -/
def splitComma : List Char → List (List Char)
  | [] => [[]]
  | c :: cs =>
    if c = ',' then [] :: splitComma cs
    else
      match splitComma cs with
      | [] => [[c]]
      | t :: ts => (c :: t) :: ts

/-- The predicate `strings::SkipWhitespace()`: a piece is kept when something
is left of it after stripping white space, that is, when it has a character
that is not white space. -/
def SkipWhitespace (sp : List Char) : Bool :=
  sp.any (fun c => !isspace c)

/-- Modelled from the spec: `strings::Split(text, ",", strings::SkipWhitespace())`
of gutil, which is not among the sources: the comma-separated tokens of
`text`, blank tokens skipped. -/
def Split (text : List Char) : List (List Char) :=
  (splitComma text).filter SkipWhitespace

/-- The largest `long long`. -/
def LLONG_MAX : Int := 2 ^ 63 - 1

/-- The smallest `long long`. -/
def LLONG_MIN : Int := -(2 ^ 63)

/-- The value of a run of decimal digits, most significant first. -/
def digitsValue (ds : List Char) : Nat :=
  ds.foldl (fun acc c => acc * 10 + (c.toNat - 48)) 0

/-- The C library `std::strtoll(s, NULL, 10)`: leading white space is skipped,
an optional sign is read, then the longest run of decimal digits; the rest of
the text is ignored. Without any digit the result is `0`; a value outside
`long long` is clamped to `LLONG_MIN` or `LLONG_MAX`. It reports nothing to
the caller besides the value (the end pointer is `NULL`) and throws nothing.
A NUL byte, where `c_str()` ends, is neither white space nor sign nor digit,
so the scan stops there as well. -/
def strtoll (s : List Char) : Int :=
  match s.dropWhile isspace with
  | '-' :: r => max (-(digitsValue (r.takeWhile isdigit) : Int)) LLONG_MIN
  | '+' :: r => min (digitsValue (r.takeWhile isdigit) : Int) LLONG_MAX
  | r => min (digitsValue (r.takeWhile isdigit) : Int) LLONG_MAX

/-! ## The column position map -/

/-- The member `_column_pos_map` (column id to column position in the stored
block), as an association list with at most one entry per key. -/
abbrev ColumnPosMap := List (Int × Nat)

/-- Lookup, `_column_pos_map.find(key)`. -/
def ColumnPosMap.find : ColumnPosMap → Int → Option Nat
  | [], _ => none
  | (k, v) :: rest, key => if k = key then some v else ColumnPosMap.find rest key

/-- The call `_column_pos_map.emplace(key, value)`: inserts only when the key
is absent, an existing entry is kept as it is. -/
def ColumnPosMap.emplace (m : ColumnPosMap) (key : Int) (value : Nat) : ColumnPosMap :=
  match ColumnPosMap.find m key with
  | some _ => m
  | none => m ++ [(key, value)]

/-- The subscript `_column_pos_map[key]`: the stored value, and when the key
is absent a value-initialised entry (`0`) is inserted and returned. -/
def ColumnPosMap.subscript (m : ColumnPosMap) (key : Int) : Nat × ColumnPosMap :=
  match ColumnPosMap.find m key with
  | some v => (v, m)
  | none => (0, m ++ [(key, 0)])

/-- The size `_column_pos_map.size()`. -/
def ColumnPosMap.size (m : ColumnPosMap) : Nat := m.length

/-! ## Slots, columns, blocks -/

/-- The two attributes of a `SlotDescriptor` that the reader uses. -/
structure SlotDescriptor where
  col_unique_id : Int
  is_nullable : Bool
  deriving DecidableEq, Repr

/-- A column: a plain (not nullable) column of values, or a `ColumnNullable`
holding the nested values and a null map with one byte per row (non-zero:
the row is null). -/
inductive IColumn where
  | vector (values : List Int)
  | nullable (values : List Int) (null_map : List Nat)
  deriving DecidableEq, Repr

/-- `is_column_nullable`. -/
def IColumn.is_nullable : IColumn → Bool
  | .vector _ => false
  | .nullable _ _ => true

/-- The values a column holds, row by row. -/
def IColumn.values : IColumn → List Int
  | .vector vs => vs
  | .nullable vs _ => vs

/-- `column->size()`. -/
def IColumn.size (c : IColumn) : Nat := c.values.length

/-- The number of null rows of a column. -/
def IColumn.null_count : IColumn → Nat
  | .vector _ => 0
  | .nullable _ nm => nm.countP (fun b => b ≠ 0)

/-- Modelled from the spec: `make_nullable(column)` is declared outside the
sources. A column that is already nullable is returned as it is; any other
column is wrapped in a nullable adapter that keeps the values and whose null
map has one zero byte per row. -/
def make_nullable : IColumn → IColumn
  | .vector vs => .nullable vs (List.replicate vs.length 0)
  | .nullable vs nm => .nullable vs nm

/-- A `ColumnWithTypeAndName`; `column` is a `ColumnPtr`, `none` being
`nullptr`. The data type is kept by its name. -/
structure ColumnWithTypeAndName where
  column : Option IColumn
  type : String
  name : String
  deriving DecidableEq, Repr

/-- A `Block` (declared outside the sources): its columns by position. The
index of the columns by name is determined by them and is left out. -/
structure Block where
  data : List ColumnWithTypeAndName
  deriving DecidableEq, Repr

/-- Modelled from the spec: `Block::get_columns_with_type_and_name`, not among
the sources: a copy of the columns. -/
def Block.get_columns_with_type_and_name (b : Block) : List ColumnWithTypeAndName := b.data

/-- Modelled from the spec: `Block::get_by_position`, not among the sources:
the column at `pos`; `none` when `pos` is out of range. -/
def Block.get_by_position (b : Block) (pos : Nat) : Option ColumnWithTypeAndName := b.data[pos]?

/-- Modelled from the spec: `Block::insert(position, elem)`, not among the
sources: insertion by position; `none` when `position` is past the end. -/
def Block.insert (b : Block) (position : Nat) (elem : ColumnWithTypeAndName) : Option Block :=
  if position ≤ b.data.length then some ⟨b.data.take position ++ elem :: b.data.drop position⟩
  else none

/-- Modelled from the spec: `Block::rows`, not among the sources: the row
count, which is the size of the first column that is not `nullptr`, and `0`
when there is none. -/
def Block.rows (b : Block) : Nat :=
  match b.data.find? (fun e => e.column.isSome) with
  | some ⟨some c, _, _⟩ => c.size
  | _ => 0

/-- A serialized block (`PBlock`), as its bytes. -/
structure PBlock where
  bytes : List Nat
  deriving DecidableEq, Repr

/-! ## `vectorized::WalReader` -/

/-- The members of `vectorized::WalReader` that `get_columns` and
`get_next_block` read or write. -/
structure WalReader where
  _tuple_descriptor : List SlotDescriptor
  _column_pos_map : ColumnPosMap
  deriving DecidableEq, Repr

/-- The loop of `get_columns` over `column_id_vector`, with the running
`pos`. -/
def get_columns_loop : ColumnPosMap → Nat → List (List Char) → ColumnPosMap
  | m, _, [] => m
  | m, pos, col_id_str :: rest =>
    get_columns_loop (ColumnPosMap.emplace m (strtoll col_id_str) pos) (pos + 1) rest

/-- `WalReader::get_columns`. The argument `header` is what
`_wal_reader->read_header(col_ids)` gave: its status and the text put in
`col_ids`. The handler for `std::invalid_argument` has no counterpart here:
nothing in the guarded block throws it (`strtoll` throws nothing). -/
def WalReader.get_columns (self : WalReader) (header : Status × List Char) : Status × WalReader :=
  if !header.1.ok then (header.1, self)
  else
    let column_id_vector := Split header.2
    (Status.OK,
      { self with _column_pos_map := get_columns_loop self._column_pos_map 0 column_id_vector })

/-- A reader on which `get_columns` has not run: the map is empty. -/
def WalReader.fresh (slots : List SlotDescriptor) : WalReader := ⟨slots, []⟩

/-- Lines 69-71 of `get_next_block`: `make_nullable` is applied when the
column pointer is not `nullptr` and the slot is nullable. -/
def nullable_step (slot_desc : SlotDescriptor) (column_ptr : Option IColumn) : Option IColumn :=
  if column_ptr.isSome && slot_desc.is_nullable then column_ptr.map make_nullable
  else column_ptr

/-- The loop of `get_next_block` over the slots of the tuple descriptor, with
the map (the subscript may insert into it), the block being built and the
running `index`. The counters `index` (an `int`) and `pos` (an `int64_t`)
are natural numbers here: they count slots and header tokens and stay far
below their bounds. -/
def convert_loop (src_block : Block) (columns : List ColumnWithTypeAndName) :
    List SlotDescriptor → ColumnPosMap → Block → Nat → Option (ColumnPosMap × Block)
  | [], m, dst_block, _ => some (m, dst_block)
  | slot_desc :: rest, m, dst_block, index =>
    let (pos, m1) := ColumnPosMap.subscript m slot_desc.col_unique_id
    match src_block.get_by_position pos with
    | none => none
    | some src_col =>
      let column_ptr := nullable_step slot_desc src_col.column
      match columns[index]? with
      | none => none
      | some template =>
        match dst_block.insert index ⟨column_ptr, template.type, template.name⟩ with
        | none => none
        | some dst1 => convert_loop src_block columns rest m1 dst1 (index + 1)

/-- Everything a call of `get_next_block` can change: the reader and the three
out-parameters `block`, `read_rows`, `eof`. -/
structure CallState where
  reader : WalReader
  block : Block
  read_rows : Nat
  eof : Bool
  deriving DecidableEq, Repr

/-- `WalReader::get_next_block`. The argument `read` is what
`_wal_reader->read_block(pblock)` gave (its status and the `pblock` it
filled), `deserialize` is `Block::deserialize` (its status and the block it
built). The result is the returned status and the state left behind; it is
`none` when the `CHECK` on the column count fails or the loop leaves the
bounds of a block. On the two early failure returns the state is untouched;
`block->swap(dst_block)` and the assignment of `read_rows` happen only after
the loop. -/
def WalReader.get_next_block (deserialize : PBlock → Status × Block)
    (read : Status × PBlock) (s : CallState) : Option (Status × CallState) :=
  let st := read.1
  if st.is ErrorCode.END_OF_FILE then
    some (Status.OK, { s with read_rows := 0, eof := true })
  else if !st.ok then
    some (st, s)
  else
    let d := deserialize read.2
    if !d.1.ok then some (d.1, s)
    else
      let src_block := d.2
      let columns := s.block.get_columns_with_type_and_name
      if columns.length ≠ s.reader._tuple_descriptor.length then none
      else
        match convert_loop src_block columns s.reader._tuple_descriptor
            s.reader._column_pos_map ⟨[]⟩ 0 with
        | none => none
        | some (m, dst_block) =>
          some (Status.OK,
            { reader := { s.reader with _column_pos_map := m }
              block := dst_block
              read_rows := dst_block.rows
              eof := s.eof })

/-! ## Decimal headers -/

/-- The character of a decimal digit. -/
def digitChar (d : Nat) : Char := Char.ofNat (48 + d)

/-- The decimal digits of `n`, most significant first, on `fuel` steps. -/
def natDigitsAux : Nat → Nat → List Char
  | 0, _ => []
  | fuel + 1, n =>
    if n < 10 then [digitChar n]
    else natDigitsAux fuel (n / 10) ++ [digitChar (n % 10)]

/-- The decimal numeral of a natural number. -/
def natDigits (n : Nat) : List Char := natDigitsAux (n + 1) n

/-- The decimal numeral of an integer, with `-` before a negative one. -/
def decimal (n : Int) : List Char :=
  if n < 0 then '-' :: natDigits n.natAbs else natDigits n.toNat

/-- Tokens joined by single commas. -/
def joinComma : List (List Char) → List Char
  | [] => []
  | [t] => t
  | t :: u :: ts => t ++ ',' :: joinComma (u :: ts)

/-- The header text that lists the column ids `ids`: their decimal numerals,
comma-separated. -/
def headerOf (ids : List Int) : List Char := joinComma (ids.map decimal)

/-! ## The table-sink operator -/

/-- The state of an `OlapTableSinkV2Operator` that bears on admission: what
the asynchronous writer answered to each submission so far (`true`:
accepted), the latest first. -/
structure OlapTableSinkV2Operator where
  admissions : List Bool
  deriving DecidableEq, Repr

/-- Modelled from the spec: `sink` of the operator is inherited from
`DataSinkOperator`, which is not among the sources: the batch is submitted
to the asynchronous writer, whose answer `submit batch` is recorded. -/
def OlapTableSinkV2Operator.sink (submit : Block → Bool) (self : OlapTableSinkV2Operator)
    (in_block : Block) : OlapTableSinkV2Operator :=
  ⟨submit in_block :: self.admissions⟩

/-- `OlapTableSinkV2Operator::can_write`: `return true;` (with the remark
`TODO: need use mem_limit`). -/
def OlapTableSinkV2Operator.can_write (_self : OlapTableSinkV2Operator) : Bool := true

/-- The members of `OlapTableSinkV2LocalState` that `close` uses: `_closed` of
the base class and `_close_status`. -/
structure OlapTableSinkV2LocalState where
  _closed : Bool
  _close_status : Status
  deriving DecidableEq, Repr

/-- A local state as constructed: not closed, `_close_status = Status::OK()`. -/
def OlapTableSinkV2LocalState.create : OlapTableSinkV2LocalState := ⟨false, Status.OK⟩

/-- Modelled from the spec: `OlapTableSinkV2LocalState::close` is only declared
in the header, its body is not among the sources. On the first call the
writer is drained and closed with the incoming `exec_status`
(`drain_and_close`); a failing `exec_status` takes precedence and is stored
as the close status, otherwise the status of the writer is stored. Every
call returns the stored close status. -/
def OlapTableSinkV2LocalState.close (drain_and_close : Status → Status)
    (self : OlapTableSinkV2LocalState) (exec_status : Status) :
    Status × OlapTableSinkV2LocalState :=
  if self._closed then (self._close_status, self)
  else
    let writer_status := drain_and_close exec_status
    let close_status := if !exec_status.ok then exec_status else writer_status
    (close_status, ⟨true, close_status⟩)

/-! ## The end-to-end scenario -/

/-- The stored block of the scenario: columns `A`, `B`, `C` in log order. -/
def scenario_source : Block :=
  ⟨[⟨some (.vector [1, 2]), "Int32", "A"⟩, ⟨some (.vector [3, 4]), "Int32", "B"⟩,
    ⟨some (.vector [5, 6]), "Int32", "C"⟩]⟩

/-- Deserialization in the scenario: every record holds `scenario_source`. -/
def scenario_deserialize (_pblock : PBlock) : Status × Block := (Status.OK, scenario_source)

/-- The target schema of the scenario: slot ids `12` (not nullable) and `10`
(nullable). -/
def scenario_slots : List SlotDescriptor := [⟨12, false⟩, ⟨10, true⟩]

/-- The state before `get_next_block` in the scenario: the reader after
`get_columns` on the header `10,11,12`, and a template block with one column
per slot. -/
def scenario_state : CallState :=
  { reader :=
      (WalReader.get_columns (WalReader.fresh scenario_slots) (Status.OK, "10,11,12".toList)).2
    block := ⟨[⟨none, "Int32", "c"⟩, ⟨none, "Nullable(Int32)", "a"⟩]⟩
    read_rows := 0
    eof := false }

/-- A stored block with the two columns `A`, `B` of a log whose header is
`10,11`. -/
def missing_column_source : Block :=
  ⟨[⟨some (.vector [1, 2]), "Int32", "A"⟩, ⟨some (.vector [3, 4]), "Int32", "B"⟩]⟩

/-- A state whose schema asks for the column id `12`, on a log whose header
`10,11` does not list it. -/
def missing_column_state : CallState :=
  { reader := (WalReader.get_columns (WalReader.fresh [⟨12, false⟩]) (Status.OK, "10,11".toList)).2
    block := ⟨[⟨none, "Int32", "c"⟩]⟩
    read_rows := 0
    eof := false }

/-! ## Auxiliary notions for the statements -/

/-- The index of the first occurrence of `k` in `ks`. -/
def firstIndex (k : Int) : List Int → Option Nat
  | [] => none
  | x :: xs => if x = k then some 0 else (firstIndex k xs).map (· + 1)

end doris

namespace doris

/-! ## The position map built by `get_columns` -/

theorem find_append_single (m : ColumnPosMap) (k : Int) (v : Nat) (key : Int) :
    ColumnPosMap.find (m ++ [(k, v)]) key =
      match ColumnPosMap.find m key with
      | some p => some p
      | none => if k = key then some v else none := by
  induction m with
  | nil => simp [ColumnPosMap.find]
  | cons e rest ih =>
    obtain ⟨k0, v0⟩ := e
    by_cases h : k0 = key
    · simp [ColumnPosMap.find, h]
    · simp [ColumnPosMap.find, h, ih]

theorem find_emplace (m : ColumnPosMap) (k : Int) (v : Nat) (key : Int) :
    ColumnPosMap.find (ColumnPosMap.emplace m k v) key =
      match ColumnPosMap.find m key with
      | some p => some p
      | none => if k = key then some v else none := by
  unfold ColumnPosMap.emplace
  cases hk : ColumnPosMap.find m k with
  | none => simp only [find_append_single]
  | some q =>
    cases hkey : ColumnPosMap.find m key with
    | some p => simp [hkey]
    | none =>
      have hne : k ≠ key := by
        intro h
        rw [h] at hk
        rw [hk] at hkey
        cases hkey
      simp [hkey, hne]

theorem firstIndex_eq_some_iff (k : Int) (ks : List Int) (j : Nat) :
    firstIndex k ks = some j ↔ ks[j]? = some k ∧ ∀ i, i < j → ks[i]? ≠ some k := by
  induction ks generalizing j with
  | nil => simp [firstIndex]
  | cons x xs ih =>
    by_cases hx : x = k
    · subst hx
      simp only [firstIndex, if_true]
      constructor
      · intro h
        cases h
        simp
      · rintro ⟨_, h2⟩
        cases j with
        | zero => rfl
        | succ j =>
          exact absurd (by simp) (h2 0 (Nat.succ_pos j))
    · simp only [firstIndex, if_neg hx]
      cases j with
      | zero =>
        simp only [Option.map_eq_some', List.getElem?_cons_zero, Option.some.injEq]
        constructor
        · rintro ⟨a, _, ha⟩
          omega
        · rintro ⟨h, _⟩
          exact absurd h hx
      | succ j =>
        simp only [Option.map_eq_some', List.getElem?_cons_succ]
        constructor
        · rintro ⟨a, ha, haj⟩
          have haj2 : a = j := by omega
          subst haj2
          obtain ⟨h1, h2⟩ := (ih a).1 ha
          refine ⟨h1, ?_⟩
          intro i hi
          cases i with
          | zero =>
            simp only [List.getElem?_cons_zero, ne_eq, Option.some.injEq]
            exact hx
          | succ i =>
            simp only [List.getElem?_cons_succ]
            exact h2 i (by omega)
        · rintro ⟨h1, h2⟩
          refine ⟨j, (ih j).2 ⟨h1, ?_⟩, rfl⟩
          intro i hi
          have := h2 (i + 1) (by omega)
          simpa using this

theorem find_get_columns_loop (toks : List (List Char)) (m : ColumnPosMap) (pos : Nat)
    (key : Int) :
    ColumnPosMap.find (get_columns_loop m pos toks) key =
      match ColumnPosMap.find m key with
      | some p => some p
      | none => (firstIndex key (toks.map strtoll)).map (pos + ·) := by
  induction toks generalizing m pos with
  | nil =>
    simp only [get_columns_loop, List.map_nil, firstIndex, Option.map_none']
    cases ColumnPosMap.find m key <;> rfl
  | cons t rest ih =>
    simp only [get_columns_loop, List.map_cons, firstIndex]
    rw [ih, find_emplace]
    cases hm : ColumnPosMap.find m key with
    | some p => rfl
    | none =>
      by_cases ht : strtoll t = key
      · simp [ht]
      · simp only [ht, if_false]
        cases firstIndex key (List.map strtoll rest) with
        | none => rfl
        | some j =>
          simp only [Option.map_some', Option.some.injEq]
          omega

theorem find_get_columns_fresh (slots : List SlotDescriptor) (header : List Char) (key : Int) :
    ColumnPosMap.find
        (WalReader.get_columns (WalReader.fresh slots) (Status.OK, header)).2._column_pos_map key =
      firstIndex key ((Split header).map strtoll) := by
  have hok : Status.OK.ok = true := by decide
  simp only [WalReader.get_columns, hok, WalReader.fresh, Bool.not_true, Bool.false_eq_true,
    if_false]
  rw [find_get_columns_loop]
  simp only [ColumnPosMap.find]
  cases firstIndex key (List.map strtoll (Split header)) with
  | none => rfl
  | some j => simp

/-- C10. Position map on arbitrary headers: after `get_columns` on a fresh
reader, a key `k` is mapped to `p` exactly when the token number `p` (counted
from 0 over the non-blank comma-separated tokens) is the first token that
`strtoll` parses to `k`; hence every stored position is below the number of
non-blank tokens, and two keys never share a position. -/
theorem get_columns_position_map (slots : List SlotDescriptor) (header : List Char) :
    (∀ k p,
      ColumnPosMap.find
          (WalReader.get_columns (WalReader.fresh slots) (Status.OK, header)).2._column_pos_map k
        = some p ↔
      ((Split header)[p]?.map strtoll = some k ∧
        ∀ i, i < p → (Split header)[i]?.map strtoll ≠ some k)) ∧
    (∀ k p,
      ColumnPosMap.find
          (WalReader.get_columns (WalReader.fresh slots) (Status.OK, header)).2._column_pos_map k
        = some p → p < (Split header).length) ∧
    (∀ k1 k2 p,
      ColumnPosMap.find
          (WalReader.get_columns (WalReader.fresh slots) (Status.OK, header)).2._column_pos_map k1
        = some p →
      ColumnPosMap.find
          (WalReader.get_columns (WalReader.fresh slots) (Status.OK, header)).2._column_pos_map k2
        = some p → k1 = k2) := by
  have key : ∀ k p,
      ColumnPosMap.find
          (WalReader.get_columns (WalReader.fresh slots) (Status.OK, header)).2._column_pos_map k
        = some p ↔
      ((Split header)[p]?.map strtoll = some k ∧
        ∀ i, i < p → (Split header)[i]?.map strtoll ≠ some k) := by
    intro k p
    rw [find_get_columns_fresh, firstIndex_eq_some_iff]
    simp only [List.getElem?_map]
  refine ⟨key, ?_, ?_⟩
  · intro k p h
    have h1 := ((key k p).1 h).1
    by_contra hlt
    have : (Split header)[p]? = none := List.getElem?_eq_none (by omega)
    rw [this] at h1
    cases h1
  · intro k1 k2 p h1 h2
    have e1 := ((key k1 p).1 h1).1
    have e2 := ((key k2 p).1 h2).1
    rw [e1] at e2
    exact Option.some.inj e2

/-- C10, at the header `7, 8,7,,9`: the second `7` is skipped but counted, the
blank token is not counted. -/
theorem get_columns_position_map_witness :
    ColumnPosMap.find
        (WalReader.get_columns (WalReader.fresh []) (Status.OK, "7, 8,7,,9".toList)).2._column_pos_map 9
      = some 3 ∧
    3 < (Split "7, 8,7,,9".toList).length :=
  ⟨by decide,
    (get_columns_position_map [] "7, 8,7,,9".toList).2.1 9 3 (by decide)⟩

/-- C4. A header with a token that is not an integer: `get_columns` returns
`OK`, whatever the tokens are, and no `InvalidArgument`; on `10,abc,12` the
token `abc` is read as the column id `0`. -/
theorem get_columns_accepts_invalid_token :
    (∀ (self : WalReader) (header : List Char),
      (WalReader.get_columns self (Status.OK, header)).1 = Status.OK) ∧
    WalReader.get_columns (WalReader.fresh []) (Status.OK, "10,abc,12".toList)
      = (Status.OK, ⟨[], [(10, 0), (0, 1), (12, 2)]⟩) := by
  refine ⟨?_, by decide⟩
  intro self header
  have hok : Status.OK.ok = true := by decide
  simp [WalReader.get_columns, hok]

/-! ## Decimal numerals are read back by `strtoll` -/

theorem digitChar_toNat (d : Nat) (h : d < 10) : (digitChar d).toNat = 48 + d := by
  interval_cases d <;> rfl

theorem mem_natDigitsAux (fuel n : Nat) (c : Char) (h : c ∈ natDigitsAux fuel n) :
    ∃ d, d < 10 ∧ c = digitChar d := by
  induction fuel generalizing n with
  | zero => simp [natDigitsAux] at h
  | succ fuel ih =>
    unfold natDigitsAux at h
    split at h
    · rename_i hlt
      simp only [List.mem_singleton] at h
      exact ⟨n, hlt, h⟩
    · simp only [List.mem_append, List.mem_singleton] at h
      rcases h with h | h
      · exact ih _ h
      · exact ⟨n % 10, Nat.mod_lt _ (by decide), h⟩

theorem natDigits_ne_nil (n : Nat) : natDigits n ≠ [] := by
  unfold natDigits natDigitsAux
  split <;> simp

theorem digitsValue_append_single (xs : List Char) (c : Char) :
    digitsValue (xs ++ [c]) = digitsValue xs * 10 + (c.toNat - 48) := by
  simp [digitsValue, List.foldl_append]

theorem digitsValue_natDigitsAux (fuel n : Nat) (h : n < fuel) :
    digitsValue (natDigitsAux fuel n) = n := by
  induction fuel generalizing n with
  | zero => omega
  | succ fuel ih =>
    unfold natDigitsAux
    split
    · rename_i hlt
      simp [digitsValue, digitChar_toNat n hlt]
    · rename_i hge
      rw [digitsValue_append_single, ih (n / 10) (by omega),
        digitChar_toNat (n % 10) (Nat.mod_lt _ (by decide))]
      omega

theorem mem_natDigits_toNat (n : Nat) (c : Char) (h : c ∈ natDigits n) :
    48 ≤ c.toNat ∧ c.toNat ≤ 57 := by
  obtain ⟨d, hd, rfl⟩ := mem_natDigitsAux _ _ _ h
  rw [digitChar_toNat d hd]
  omega

theorem takeWhile_isdigit_natDigits (n : Nat) :
    (natDigits n).takeWhile isdigit = natDigits n := by
  rw [List.takeWhile_eq_self_iff]
  intro c hc
  have := mem_natDigits_toNat n c hc
  simp [isdigit, this.1, this.2]

theorem digitsValue_natDigits (n : Nat) : digitsValue (natDigits n) = n :=
  digitsValue_natDigitsAux (n + 1) n (Nat.lt_succ_self n)

theorem strtoll_decimal (n : Int) (hlo : LLONG_MIN ≤ n) (hhi : n ≤ LLONG_MAX) :
    strtoll (decimal n) = n := by
  unfold decimal
  split
  · rename_i hneg
    have hsp : isspace '-' = false := by decide
    simp only [strtoll, List.dropWhile_cons, hsp, Bool.false_eq_true, if_false,
      takeWhile_isdigit_natDigits, digitsValue_natDigits]
    have : ((n.natAbs : Nat) : Int) = -n := by omega
    rw [this, neg_neg]
    exact max_eq_left hlo
  · rename_i hnn
    obtain ⟨c, cs, hcs⟩ := List.exists_cons_of_ne_nil (natDigits_ne_nil n.toNat)
    have hc := mem_natDigits_toNat n.toNat c (by rw [hcs]; exact List.mem_cons_self _ _)
    have hsp : isspace c = false := by
      simp only [isspace, Bool.or_eq_false_iff, decide_eq_false_iff_not, Bool.and_eq_false_imp,
        decide_eq_true_eq]
      omega
    have hminus : c ≠ '-' := by
      intro h
      rw [h] at hc
      revert hc
      decide
    have hplus : c ≠ '+' := by
      intro h
      rw [h] at hc
      revert hc
      decide
    have hval : digitsValue ((c :: cs).takeWhile isdigit) = n.toNat := by
      rw [← hcs, takeWhile_isdigit_natDigits, digitsValue_natDigits]
    unfold strtoll
    rw [hcs]
    simp only [List.dropWhile_cons, hsp, Bool.false_eq_true, if_false]
    split
    · rename_i heq
      exact absurd (List.cons.inj heq).1 hminus
    · rename_i heq
      exact absurd (List.cons.inj heq).1 hplus
    · rw [hval]
      have : ((n.toNat : Nat) : Int) = n := by omega
      rw [this]
      exact min_eq_left hhi

/-! ## A joined header splits back into its tokens -/

theorem splitComma_append (t r u : List Char) (us : List (List Char))
    (ht : ∀ c ∈ t, c ≠ ',') (hr : splitComma r = u :: us) :
    splitComma (t ++ r) = (t ++ u) :: us := by
  induction t with
  | nil => simpa using hr
  | cons c cs ih =>
    have hc : c ≠ ',' := ht c (List.mem_cons_self _ _)
    have ih2 := ih (fun x hx => ht x (List.mem_cons_of_mem _ hx))
    show splitComma (c :: (cs ++ r)) = (c :: (cs ++ u)) :: us
    simp only [splitComma, if_neg hc, ih2]

theorem splitComma_joinComma (toks : List (List Char)) (hne : toks ≠ [])
    (ht : ∀ t ∈ toks, ∀ c ∈ t, c ≠ ',') :
    splitComma (joinComma toks) = toks := by
  induction toks with
  | nil => exact absurd rfl hne
  | cons t rest ih =>
    cases rest with
    | nil =>
      have := splitComma_append t [] [] [] (ht t (List.mem_cons_self _ _)) rfl
      simpa [joinComma] using this
    | cons u ts =>
      have ih2 := ih (List.cons_ne_nil _ _) (fun x hx => ht x (List.mem_cons_of_mem _ hx))
      have hr : splitComma (',' :: joinComma (u :: ts)) = [] :: (u :: ts) := by
        simp [splitComma, ih2]
      have := splitComma_append t _ _ _ (ht t (List.mem_cons_self _ _)) hr
      simpa [joinComma] using this

theorem Split_joinComma (toks : List (List Char))
    (ht : ∀ t ∈ toks, ∀ c ∈ t, c ≠ ',') (hs : ∀ t ∈ toks, SkipWhitespace t = true) :
    Split (joinComma toks) = toks := by
  unfold Split
  cases toks with
  | nil => decide
  | cons t rest =>
    rw [splitComma_joinComma _ (List.cons_ne_nil _ _) ht, List.filter_eq_self]
    exact hs

theorem mem_decimal (n : Int) (c : Char) (h : c ∈ decimal n) :
    c = '-' ∨ (48 ≤ c.toNat ∧ c.toNat ≤ 57) := by
  unfold decimal at h
  split at h
  · simp only [List.mem_cons] at h
    rcases h with h | h
    · exact Or.inl h
    · exact Or.inr (mem_natDigits_toNat _ _ h)
  · exact Or.inr (mem_natDigits_toNat _ _ h)

theorem decimal_no_comma (n : Int) (c : Char) (h : c ∈ decimal n) : c ≠ ',' := by
  rcases mem_decimal n c h with h | h
  · rw [h]
    decide
  · intro hc
    rw [hc] at h
    revert h
    decide

theorem SkipWhitespace_decimal (n : Int) : SkipWhitespace (decimal n) = true := by
  have hne : decimal n ≠ [] := by
    unfold decimal
    split
    · simp
    · exact natDigits_ne_nil _
  obtain ⟨c, cs, hcs⟩ := List.exists_cons_of_ne_nil hne
  have hc := mem_decimal n c (by rw [hcs]; exact List.mem_cons_self _ _)
  have hsp : isspace c = false := by
    rcases hc with hc | hc
    · rw [hc]
      decide
    · simp only [isspace, Bool.or_eq_false_iff, decide_eq_false_iff_not, Bool.and_eq_false_imp,
        decide_eq_true_eq]
      omega
  simp [SkipWhitespace, hcs, hsp]

theorem Split_headerOf (ids : List Int) : Split (headerOf ids) = ids.map decimal := by
  unfold headerOf
  apply Split_joinComma
  · intro t ht c hc
    obtain ⟨n, _, rfl⟩ := List.mem_map.1 ht
    exact decimal_no_comma n c hc
  · intro t ht
    obtain ⟨n, _, rfl⟩ := List.mem_map.1 ht
    exact SkipWhitespace_decimal n

theorem map_strtoll_decimal (ids : List Int)
    (hr : ∀ id ∈ ids, LLONG_MIN ≤ id ∧ id ≤ LLONG_MAX) :
    (ids.map decimal).map strtoll = ids := by
  induction ids with
  | nil => rfl
  | cons a rest ih =>
    have ha := hr a (List.mem_cons_self _ _)
    simp only [List.map_cons, strtoll_decimal a ha.1 ha.2,
      ih (fun x hx => hr x (List.mem_cons_of_mem _ hx))]

theorem length_get_columns_loop (toks : List (List Char)) (m : ColumnPosMap) (pos : Nat)
    (hd : (toks.map strtoll).Nodup)
    (hm : ∀ t ∈ toks, ColumnPosMap.find m (strtoll t) = none) :
    (get_columns_loop m pos toks).length = m.length + toks.length := by
  induction toks generalizing m pos with
  | nil => simp [get_columns_loop]
  | cons t rest ih =>
    have ht : ColumnPosMap.find m (strtoll t) = none := hm t (List.mem_cons_self _ _)
    have hd2 : strtoll t ∉ rest.map strtoll ∧ (rest.map strtoll).Nodup :=
      List.nodup_cons.1 hd
    have hem : ColumnPosMap.emplace m (strtoll t) pos = m ++ [(strtoll t, pos)] := by
      simp [ColumnPosMap.emplace, ht]
    simp only [get_columns_loop]
    rw [ih _ _ hd2.2, hem]
    · simp only [List.length_append, List.length_cons, List.length_nil]
      omega
    · intro u hu
      rw [hem, find_append_single, hm u (List.mem_cons_of_mem _ hu)]
      have hne : strtoll t ≠ strtoll u := by
        intro h
        exact hd2.1 (by rw [h]; exact List.mem_map_of_mem _ hu)
      simp [hne]

theorem firstIndex_nodup (ids : List Int) (hd : ids.Nodup) (i : Nat) (h : i < ids.length) :
    firstIndex ids[i] ids = some i := by
  rw [firstIndex_eq_some_iff]
  refine ⟨List.getElem?_eq_getElem h, ?_⟩
  intro j hj hjk
  have hj2 : j < ids.length := by omega
  rw [List.getElem?_eq_getElem hj2] at hjk
  have := (List.Nodup.getElem_inj_iff hd).1 (Option.some.inj hjk)
  omega

theorem firstIndex_not_mem (k : Int) (ids : List Int) (h : k ∉ ids) : firstIndex k ids = none := by
  cases hf : firstIndex k ids with
  | none => rfl
  | some j =>
    have := ((firstIndex_eq_some_iff k ids j).1 hf).1
    obtain ⟨hj, hjk⟩ := List.getElem?_eq_some.1 this
    exact absurd (hjk ▸ List.getElem_mem hj) h

/-- C2. Header round-trip: for a header that lists `N` distinct column ids
(values of the 64-bit key type) as comma-separated decimal numerals,
`get_columns` on a fresh reader returns `OK`, and the column position map
then has `N` entries, maps the id at index `i` of the list to `i`, and has no
other key. -/
theorem get_columns_header_round_trip (slots : List SlotDescriptor) (ids : List Int)
    (hd : ids.Nodup) (hr : ∀ id ∈ ids, LLONG_MIN ≤ id ∧ id ≤ LLONG_MAX) :
    (WalReader.get_columns (WalReader.fresh slots) (Status.OK, headerOf ids)).1 = Status.OK ∧
    ColumnPosMap.size
        (WalReader.get_columns (WalReader.fresh slots) (Status.OK, headerOf ids)).2._column_pos_map
      = ids.length ∧
    (∀ i (h : i < ids.length),
      ColumnPosMap.find
          (WalReader.get_columns (WalReader.fresh slots) (Status.OK, headerOf ids)).2._column_pos_map
          ids[i]
        = some i) ∧
    (∀ k, k ∉ ids →
      ColumnPosMap.find
          (WalReader.get_columns (WalReader.fresh slots) (Status.OK, headerOf ids)).2._column_pos_map
          k
        = none) := by
  have hkeys : (Split (headerOf ids)).map strtoll = ids := by
    rw [Split_headerOf, map_strtoll_decimal ids hr]
  have hok : Status.OK.ok = true := by decide
  refine ⟨?_, ?_, ?_, ?_⟩
  · simp [WalReader.get_columns, hok]
  · simp only [WalReader.get_columns, hok, WalReader.fresh, Bool.not_true, Bool.false_eq_true,
      if_false, ColumnPosMap.size]
    rw [length_get_columns_loop _ _ _ (by rw [hkeys]; exact hd)
      (fun _ _ => by simp [ColumnPosMap.find])]
    simp [Split_headerOf]
  · intro i h
    rw [find_get_columns_fresh, hkeys]
    exact firstIndex_nodup ids hd i h
  · intro k hk
    rw [find_get_columns_fresh, hkeys]
    exact firstIndex_not_mem k ids hk

/-- C2, at the header `10,11,12`. -/
theorem get_columns_header_round_trip_witness :
    headerOf [10, 11, 12] = "10,11,12".toList ∧
    ColumnPosMap.find
        (WalReader.get_columns (WalReader.fresh []) (Status.OK, headerOf [10, 11, 12])).2._column_pos_map
        12
      = some 2 :=
  ⟨by decide,
    (get_columns_header_round_trip [] [10, 11, 12] (by decide) (by decide)).2.2.1 2 (by decide)⟩

/-! ## `get_next_block` -/

theorem subscript_of_find (m : ColumnPosMap) (key : Int) (v : Nat)
    (h : ColumnPosMap.find m key = some v) : ColumnPosMap.subscript m key = (v, m) := by
  simp [ColumnPosMap.subscript, h]

theorem insert_at_end (b : Block) (index : Nat) (elem : ColumnWithTypeAndName)
    (h : index = b.data.length) : b.insert index elem = some ⟨b.data ++ [elem]⟩ := by
  subst h
  simp [Block.insert]

theorem convert_loop_spec (src_block : Block) (columns : List ColumnWithTypeAndName)
    (slots : List SlotDescriptor) (m : ColumnPosMap) (dst_block : Block) (index : Nat)
    (hidx : index = dst_block.data.length)
    (hcols : index + slots.length ≤ columns.length)
    (hkeys : ∀ slot ∈ slots, ∃ pos,
      ColumnPosMap.find m slot.col_unique_id = some pos ∧ pos < src_block.data.length) :
    ∃ dst, convert_loop src_block columns slots m dst_block index = some (m, dst) ∧
      dst.data.length = index + slots.length ∧
      (∀ i, i < index → dst.data[i]? = dst_block.data[i]?) ∧
      (∀ j slot, slots[j]? = some slot →
        ∃ pos src_col template,
          ColumnPosMap.find m slot.col_unique_id = some pos ∧
          src_block.get_by_position pos = some src_col ∧
          columns[index + j]? = some template ∧
          dst.data[index + j]? =
            some ⟨nullable_step slot src_col.column, template.type, template.name⟩) := by
  induction slots generalizing dst_block index with
  | nil =>
    refine ⟨dst_block, rfl, by simp [hidx], fun _ _ => rfl, ?_⟩
    intro j slot h
    simp at h
  | cons slot rest ih =>
    obtain ⟨pos, hpos, hlt⟩ := hkeys slot (List.mem_cons_self _ _)
    have hsrc : src_block.get_by_position pos = some (src_block.data[pos]) := by
      simp [Block.get_by_position, List.getElem?_eq_getElem hlt]
    have hlen : index < columns.length := by
      simp only [List.length_cons] at hcols
      omega
    have htem : columns[index]? = some (columns[index]) := List.getElem?_eq_getElem hlen
    obtain ⟨dst, hrun, hdlen, hpre, hrest⟩ :=
      ih ⟨dst_block.data ++
          [⟨nullable_step slot (src_block.data[pos]).column, (columns[index]).type,
            (columns[index]).name⟩]⟩ (index + 1)
        (by simp [hidx])
        (by simp only [List.length_cons] at hcols; omega)
        (fun x hx => hkeys x (List.mem_cons_of_mem _ hx))
    refine ⟨dst, ?_, ?_, ?_, ?_⟩
    · simp only [convert_loop, subscript_of_find m _ pos hpos, hsrc, htem]
      rw [insert_at_end _ _ _ hidx]
      exact hrun
    · simp only [List.length_cons]
      omega
    · intro i hi
      rw [hpre i (by omega)]
      simp only
      rw [List.getElem?_append_left (by omega)]
    · intro j s hj
      cases j with
      | zero =>
        simp only [List.getElem?_cons_zero, Option.some.injEq] at hj
        subst hj
        refine ⟨pos, src_block.data[pos], columns[index], hpos, hsrc, htem, ?_⟩
        rw [Nat.add_zero, hpre index (by omega)]
        simp only
        rw [List.getElem?_append_right (by omega)]
        simp [hidx]
      | succ j =>
        simp only [List.getElem?_cons_succ] at hj
        obtain ⟨p, sc, tm, h1, h2, h3, h4⟩ := hrest j s hj
        refine ⟨p, sc, tm, h1, h2, ?_, ?_⟩
        · rw [← h3]
          congr 1
          omega
        · rw [← h4]
          congr 1
          omega

theorem nullable_step_values (slot : SlotDescriptor) (column_ptr : Option IColumn) :
    (nullable_step slot column_ptr).map IColumn.values = column_ptr.map IColumn.values := by
  unfold nullable_step
  split
  · cases column_ptr with
    | none => rfl
    | some c => cases c <;> rfl
  · rfl

theorem nullable_step_not_nullable (slot : SlotDescriptor) (column_ptr : Option IColumn)
    (h : slot.is_nullable = false) : nullable_step slot column_ptr = column_ptr := by
  simp [nullable_step, h]

theorem get_next_block_ok (deserialize : PBlock → Status × Block) (st : Status)
    (pblock : PBlock) (s : CallState)
    (hst : st.ok = true) (hde : (deserialize pblock).1.ok = true)
    (hcols : s.block.data.length = s.reader._tuple_descriptor.length)
    (hkeys : ∀ slot ∈ s.reader._tuple_descriptor, ∃ pos,
      ColumnPosMap.find s.reader._column_pos_map slot.col_unique_id = some pos ∧
      pos < (deserialize pblock).2.data.length) :
    ∃ dst : Block,
      WalReader.get_next_block deserialize (st, pblock) s =
        some (Status.OK, ⟨s.reader, dst, dst.rows, s.eof⟩) ∧
      dst.data.length = s.reader._tuple_descriptor.length ∧
      (∀ (i : Nat) (slot : SlotDescriptor), s.reader._tuple_descriptor[i]? = some slot →
        ∃ pos src_col template,
          ColumnPosMap.find s.reader._column_pos_map slot.col_unique_id = some pos ∧
          (deserialize pblock).2.get_by_position pos = some src_col ∧
          s.block.data[i]? = some template ∧
          dst.data[i]? =
            some ⟨nullable_step slot src_col.column, template.type, template.name⟩) := by
  obtain ⟨dst, hrun, hlen, _, hcolumns⟩ :=
    convert_loop_spec (deserialize pblock).2 s.block.data s.reader._tuple_descriptor
      s.reader._column_pos_map ⟨[]⟩ 0 rfl (by omega) hkeys
  have hneof : st.is ErrorCode.END_OF_FILE = false := by
    simp only [Status.ok, decide_eq_true_eq] at hst
    simp [Status.is, hst]
  refine ⟨dst, ?_, by omega, ?_⟩
  · simp only [WalReader.get_next_block, hneof, hst, hde, Block.get_columns_with_type_and_name,
      hcols, hrun]
    simp
  · intro i slot hi
    obtain ⟨p, sc, tm, h1, h2, h3, h4⟩ := hcolumns i slot hi
    rw [Nat.zero_add] at h3 h4
    exact ⟨p, sc, tm, h1, h2, h3, h4⟩

theorem nullable_step_wrapped (slot : SlotDescriptor) (column_ptr : Option IColumn)
    (h : nullable_step slot column_ptr ≠ column_ptr) :
    slot.is_nullable = true ∧
    ∃ c o, column_ptr = some c ∧ c.is_nullable = false ∧
      nullable_step slot column_ptr = some o ∧ o.is_nullable = true ∧
      o.values = c.values ∧ o.null_count = 0 := by
  cases hn : slot.is_nullable with
  | false => exact absurd (nullable_step_not_nullable slot column_ptr hn) h
  | true =>
    refine ⟨rfl, ?_⟩
    cases column_ptr with
    | none => exact absurd (by simp [nullable_step]) h
    | some c =>
      cases c with
      | nullable vs nm => exact absurd (by simp [nullable_step, hn, make_nullable]) h
      | vector vs =>
        refine ⟨.vector vs, .nullable vs (List.replicate vs.length 0), rfl, rfl, ?_, rfl, rfl, ?_⟩
        · simp [nullable_step, hn, make_nullable]
        · simp [IColumn.null_count, List.countP_eq_zero]

theorem nullable_step_promotes (slot : SlotDescriptor) (c : IColumn)
    (hs : slot.is_nullable = true) (hc : c.is_nullable = false) :
    nullable_step slot (some c) ≠ some c := by
  cases c with
  | nullable vs nm => cases hc
  | vector vs => simp [nullable_step, hs, make_nullable]

theorem scenario_positions :
    ∀ slot ∈ scenario_state.reader._tuple_descriptor, ∃ pos,
      ColumnPosMap.find scenario_state.reader._column_pos_map slot.col_unique_id = some pos ∧
      pos < (scenario_deserialize ⟨[]⟩).2.data.length := by
  intro slot hslot
  have hdesc : scenario_state.reader._tuple_descriptor = [⟨12, false⟩, ⟨10, true⟩] := by decide
  rw [hdesc] at hslot
  simp only [List.mem_cons, List.mem_singleton, List.not_mem_nil, or_false] at hslot
  rcases hslot with h | h
  · subst h
    exact ⟨2, by decide, by decide⟩
  · subst h
    exact ⟨0, by decide, by decide⟩

/-- C1. Reconciliation: when the record is read and deserialized, the
template block has one column per slot, and each slot's column id has a
recorded position that exists in the source block, `get_next_block` returns
`OK` and hands back a block with exactly one column per slot, in slot order;
its column `i` carries the name and type of template column `i`, and its
data is the source column at the position recorded for slot `i`'s id (the
same values row by row, and the very same column when the slot is not
nullable); `read_rows` is the row count of that block. -/
theorem get_next_block_reconciles (deserialize : PBlock → Status × Block) (st : Status)
    (pblock : PBlock) (s : CallState)
    (hst : st.ok = true) (hde : (deserialize pblock).1.ok = true)
    (hcols : s.block.data.length = s.reader._tuple_descriptor.length)
    (hkeys : ∀ slot ∈ s.reader._tuple_descriptor, ∃ pos,
      ColumnPosMap.find s.reader._column_pos_map slot.col_unique_id = some pos ∧
      pos < (deserialize pblock).2.data.length) :
    ∃ dst : Block,
      WalReader.get_next_block deserialize (st, pblock) s =
        some (Status.OK, ⟨s.reader, dst, dst.rows, s.eof⟩) ∧
      dst.data.length = s.reader._tuple_descriptor.length ∧
      (∀ (i : Nat) (slot : SlotDescriptor), s.reader._tuple_descriptor[i]? = some slot →
        ∃ pos src_col template out_col,
          ColumnPosMap.find s.reader._column_pos_map slot.col_unique_id = some pos ∧
          (deserialize pblock).2.get_by_position pos = some src_col ∧
          s.block.data[i]? = some template ∧
          dst.data[i]? = some out_col ∧
          out_col.name = template.name ∧ out_col.type = template.type ∧
          out_col.column = nullable_step slot src_col.column ∧
          out_col.column.map IColumn.values = src_col.column.map IColumn.values ∧
          (slot.is_nullable = false → out_col.column = src_col.column)) := by
  obtain ⟨dst, hrun, hlen, hcolumns⟩ := get_next_block_ok deserialize st pblock s hst hde hcols hkeys
  refine ⟨dst, hrun, hlen, ?_⟩
  intro i slot hi
  obtain ⟨p, sc, tm, h1, h2, h3, h4⟩ := hcolumns i slot hi
  exact ⟨p, sc, tm, _, h1, h2, h3, h4, rfl, rfl, rfl, nullable_step_values slot sc.column,
    nullable_step_not_nullable slot sc.column⟩

/-- C1, in the end-to-end scenario: header `10,11,12`, slots `[12, 10]`,
source columns `[A, B, C]`; the block handed back is `[C, A]`, with `A`
wrapped nullable. -/
theorem get_next_block_reconciles_witness :
    WalReader.get_next_block scenario_deserialize (Status.OK, ⟨[]⟩) scenario_state
      = some (Status.OK,
          ⟨scenario_state.reader,
            ⟨[⟨some (.vector [5, 6]), "Int32", "c"⟩,
              ⟨some (.nullable [1, 2] [0, 0]), "Nullable(Int32)", "a"⟩]⟩, 2, false⟩) ∧
    ∃ dst : Block,
      WalReader.get_next_block scenario_deserialize (Status.OK, ⟨[]⟩) scenario_state =
        some (Status.OK, ⟨scenario_state.reader, dst, dst.rows, scenario_state.eof⟩) ∧
      dst.data.length = 2 :=
  ⟨by decide,
    (get_next_block_reconciles scenario_deserialize Status.OK ⟨[]⟩ scenario_state
      (by decide) (by decide) (by decide)
      scenario_positions).imp
      (fun _ h => ⟨h.1, h.2.1⟩)⟩

/-- C5. Nullable promotion: under the conditions of a successful
`get_next_block`, for every slot the output column differs from the source
column (it was wrapped) only if the slot is nullable and the source column
is not; a wrapped output column is nullable, holds the values of the source
column in the same order and has no null row; a non-nullable source column
of a nullable slot is wrapped; for a non-nullable slot the output column is
the source column itself. -/
theorem get_next_block_nullable_promotion (deserialize : PBlock → Status × Block) (st : Status)
    (pblock : PBlock) (s : CallState)
    (hst : st.ok = true) (hde : (deserialize pblock).1.ok = true)
    (hcols : s.block.data.length = s.reader._tuple_descriptor.length)
    (hkeys : ∀ slot ∈ s.reader._tuple_descriptor, ∃ pos,
      ColumnPosMap.find s.reader._column_pos_map slot.col_unique_id = some pos ∧
      pos < (deserialize pblock).2.data.length) :
    ∃ dst : Block,
      WalReader.get_next_block deserialize (st, pblock) s =
        some (Status.OK, ⟨s.reader, dst, dst.rows, s.eof⟩) ∧
      (∀ (i : Nat) (slot : SlotDescriptor), s.reader._tuple_descriptor[i]? = some slot →
        ∃ pos src_col out_col,
          ColumnPosMap.find s.reader._column_pos_map slot.col_unique_id = some pos ∧
          (deserialize pblock).2.get_by_position pos = some src_col ∧
          dst.data[i]? = some out_col ∧
          (out_col.column ≠ src_col.column →
            slot.is_nullable = true ∧
            ∃ c o, src_col.column = some c ∧ c.is_nullable = false ∧
              out_col.column = some o ∧ o.is_nullable = true ∧
              o.values = c.values ∧ o.null_count = 0) ∧
          (∀ c, src_col.column = some c → slot.is_nullable = true → c.is_nullable = false →
            out_col.column ≠ src_col.column) ∧
          (slot.is_nullable = false → out_col.column = src_col.column)) := by
  obtain ⟨dst, hrun, _, hcolumns⟩ := get_next_block_ok deserialize st pblock s hst hde hcols hkeys
  refine ⟨dst, hrun, ?_⟩
  intro i slot hi
  obtain ⟨p, sc, tm, h1, h2, _, h4⟩ := hcolumns i slot hi
  refine ⟨p, sc, _, h1, h2, h4, ?_, ?_, ?_⟩
  · intro hne
    exact nullable_step_wrapped slot sc.column hne
  · intro c hc hs hcn
    show nullable_step slot sc.column ≠ sc.column
    rw [hc]
    exact nullable_step_promotes slot c hs hcn
  · exact nullable_step_not_nullable slot sc.column

/-- C5, in the end-to-end scenario: the column of the nullable slot `10` is
the nullable adapter over `A`. -/
theorem get_next_block_nullable_promotion_witness :
    nullable_step ⟨10, true⟩ (some (.vector [1, 2])) = some (.nullable [1, 2] [0, 0]) ∧
    ∃ dst : Block,
      WalReader.get_next_block scenario_deserialize (Status.OK, ⟨[]⟩) scenario_state =
        some (Status.OK, ⟨scenario_state.reader, dst, dst.rows, scenario_state.eof⟩) :=
  ⟨by decide,
    (get_next_block_nullable_promotion scenario_deserialize Status.OK ⟨[]⟩ scenario_state
      (by decide) (by decide) (by decide)
      scenario_positions).imp
      (fun _ h => h.1)⟩

/-- C3. A slot whose column id is not in the column position map: on the
header `10,11` and a schema asking for the id `12`, `get_next_block` returns
`OK`; the subscript has entered `12` at position `0`, and the slot is given
the source column `A` of position `0`. In general, once the record is read
and deserialized, every status that `get_next_block` returns is `OK`. -/
theorem get_next_block_missing_column_substitutes :
    (ColumnPosMap.find missing_column_state.reader._column_pos_map 12 = none ∧
      WalReader.get_next_block (fun _ => (Status.OK, missing_column_source)) (Status.OK, ⟨[]⟩)
          missing_column_state
        = some (Status.OK,
            ⟨⟨[⟨12, false⟩], [(10, 0), (11, 1), (12, 0)]⟩,
              ⟨[⟨some (.vector [1, 2]), "Int32", "c"⟩]⟩, 2, false⟩)) ∧
    (∀ (deserialize : PBlock → Status × Block) (st : Status) (pblock : PBlock)
        (s : CallState) (r : Status × CallState),
      st.ok = true → (deserialize pblock).1.ok = true →
      WalReader.get_next_block deserialize (st, pblock) s = some r → r.1 = Status.OK) := by
  refine ⟨by decide, ?_⟩
  intro deserialize st pblock s r hst hde hrun
  have hneof : st.is ErrorCode.END_OF_FILE = false := by
    simp only [Status.ok, decide_eq_true_eq] at hst
    simp [Status.is, hst]
  simp only [WalReader.get_next_block, hneof, hst, hde, Bool.false_eq_true, if_false,
    Bool.not_true] at hrun
  split at hrun
  · cases hrun
  · split at hrun
    · cases hrun
    · cases hrun
      rfl

/-- C3, at the missing column `12`: the status returned is `OK`. -/
theorem get_next_block_missing_column_substitutes_witness :
    ColumnPosMap.find missing_column_state.reader._column_pos_map 12 = none ∧
    ∃ r, WalReader.get_next_block (fun _ => (Status.OK, missing_column_source)) (Status.OK, ⟨[]⟩)
        missing_column_state = some r ∧ r.1 = Status.OK :=
  ⟨by decide,
    (Status.OK,
      ⟨⟨[⟨12, false⟩], [(10, 0), (11, 1), (12, 0)]⟩,
        ⟨[⟨some (.vector [1, 2]), "Int32", "c"⟩]⟩, 2, false⟩),
    by decide,
    get_next_block_missing_column_substitutes.2
      (fun _ => (Status.OK, missing_column_source)) Status.OK ⟨[]⟩ missing_column_state _
      (by decide) (by decide) (by decide)⟩

/-- C6. End of stream: when the log read reports `END_OF_FILE`,
`get_next_block` returns `OK`, sets `read_rows = 0` and `eof = true`, and
leaves the block (and the reader) as they were; a further call whose read
reports `END_OF_FILE` again gives the same result. -/
theorem get_next_block_end_of_file (deserialize : PBlock → Status × Block)
    (st st2 : Status) (pblock pblock2 : PBlock) (s : CallState)
    (h : st.code = ErrorCode.END_OF_FILE) (h2 : st2.code = ErrorCode.END_OF_FILE) :
    WalReader.get_next_block deserialize (st, pblock) s
      = some (Status.OK, ⟨s.reader, s.block, 0, true⟩) ∧
    WalReader.get_next_block deserialize (st2, pblock2) ⟨s.reader, s.block, 0, true⟩
      = some (Status.OK, ⟨s.reader, s.block, 0, true⟩) := by
  simp [WalReader.get_next_block, Status.is, h, h2]

/-- C6, at the end of the scenario's log. -/
theorem get_next_block_end_of_file_witness :
    WalReader.get_next_block scenario_deserialize (⟨ErrorCode.END_OF_FILE, "eof"⟩, ⟨[]⟩)
        scenario_state
      = some (Status.OK, ⟨scenario_state.reader, scenario_state.block, 0, true⟩) :=
  (get_next_block_end_of_file scenario_deserialize ⟨ErrorCode.END_OF_FILE, "eof"⟩
    ⟨ErrorCode.END_OF_FILE, "eof"⟩ ⟨[]⟩ ⟨[]⟩ scenario_state rfl rfl).1

/-- C7. Failure propagation: when the log read returns a status that is
neither `OK` nor `END_OF_FILE`, `get_next_block` returns that status; when
the read is `OK` and deserialization fails, it returns the status of the
deserialization; in both cases the block, `read_rows`, `eof` and the reader
are left as they were. -/
theorem get_next_block_failure (deserialize : PBlock → Status × Block) (st : Status)
    (pblock : PBlock) (s : CallState) :
    (st.code ≠ ErrorCode.END_OF_FILE → st.code ≠ ErrorCode.OK →
      WalReader.get_next_block deserialize (st, pblock) s = some (st, s)) ∧
    (st.code = ErrorCode.OK → (deserialize pblock).1.code ≠ ErrorCode.OK →
      WalReader.get_next_block deserialize (st, pblock) s = some ((deserialize pblock).1, s)) := by
  constructor
  · intro h1 h2
    simp [WalReader.get_next_block, Status.is, Status.ok, h1, h2]
  · intro h1 h2
    simp [WalReader.get_next_block, Status.is, Status.ok, h1, h2]

/-- C7, on a read error and on a corrupt record in the scenario. -/
theorem get_next_block_failure_witness :
    WalReader.get_next_block scenario_deserialize (⟨ErrorCode.OTHER 34, "read failed"⟩, ⟨[]⟩)
        scenario_state
      = some (⟨ErrorCode.OTHER 34, "read failed"⟩, scenario_state) ∧
    WalReader.get_next_block (fun _ => (⟨ErrorCode.OTHER 32, "corrupt"⟩, ⟨[]⟩)) (Status.OK, ⟨[]⟩)
        scenario_state
      = some (⟨ErrorCode.OTHER 32, "corrupt"⟩, scenario_state) :=
  ⟨(get_next_block_failure scenario_deserialize ⟨ErrorCode.OTHER 34, "read failed"⟩ ⟨[]⟩
      scenario_state).1 (by decide) (by decide),
    (get_next_block_failure (fun _ => (⟨ErrorCode.OTHER 32, "corrupt"⟩, ⟨[]⟩)) Status.OK ⟨[]⟩
      scenario_state).2 (by decide) (by decide)⟩

/-! ## The sink operator -/

/-- C8. Close: of two successive `close` calls, with any two `exec_status`
values and whatever the writer answers, the second returns what the first
returned, which is the stored close status; and when the first call is the
first close and its `exec_status` is a failure, that failure is what is
stored and returned by both calls. -/
theorem close_idempotent_first_error_wins (drain1 drain2 : Status → Status)
    (self : OlapTableSinkV2LocalState) (exec1 exec2 : Status) :
    (OlapTableSinkV2LocalState.close drain2
        (OlapTableSinkV2LocalState.close drain1 self exec1).2 exec2).1
      = (OlapTableSinkV2LocalState.close drain1 self exec1).1 ∧
    (OlapTableSinkV2LocalState.close drain2
        (OlapTableSinkV2LocalState.close drain1 self exec1).2 exec2).2._close_status
      = (OlapTableSinkV2LocalState.close drain1 self exec1).1 ∧
    (self._closed = false → exec1.ok = false →
      (OlapTableSinkV2LocalState.close drain1 self exec1).1 = exec1 ∧
      (OlapTableSinkV2LocalState.close drain1 self exec1).2._close_status = exec1 ∧
      (OlapTableSinkV2LocalState.close drain2
          (OlapTableSinkV2LocalState.close drain1 self exec1).2 exec2).1 = exec1) := by
  cases hc : self._closed with
  | true => simp [OlapTableSinkV2LocalState.close, hc]
  | false =>
    refine ⟨by simp [OlapTableSinkV2LocalState.close, hc],
      by simp [OlapTableSinkV2LocalState.close, hc], ?_⟩
    intro _ he
    simp [OlapTableSinkV2LocalState.close, hc, he]

/-- C8, on a cancelled pipeline: the first close carries a failure, the writer
fails differently, the second close carries `OK`. -/
theorem close_idempotent_first_error_wins_witness :
    (OlapTableSinkV2LocalState.close (fun _ => Status.OK)
        (OlapTableSinkV2LocalState.close (fun _ => ⟨ErrorCode.OTHER 6, "writer failed"⟩)
          OlapTableSinkV2LocalState.create ⟨ErrorCode.OTHER 1, "cancelled"⟩).2 Status.OK).1
      = ⟨ErrorCode.OTHER 1, "cancelled"⟩ :=
  ((close_idempotent_first_error_wins (fun _ => ⟨ErrorCode.OTHER 6, "writer failed"⟩)
    (fun _ => Status.OK) OlapTableSinkV2LocalState.create ⟨ErrorCode.OTHER 1, "cancelled"⟩
    Status.OK).2.2 (by decide) (by decide)).2.2

/-- C9. Under a writer that rejects every submission, after any number of
`sink` calls `can_write` still answers `true` (the operator can accept more
input); after three rejected batches the recorded admissions are all
`false` and `can_write` is `true`. -/
theorem can_write_under_rejecting_writer :
    (∀ (op : OlapTableSinkV2Operator) (blocks : List Block),
      (blocks.foldl (OlapTableSinkV2Operator.sink (fun _ => false)) op).can_write = true) ∧
    ([scenario_source, scenario_source, scenario_source].foldl
        (OlapTableSinkV2Operator.sink (fun _ => false)) ⟨[]⟩).admissions = [false, false, false] ∧
    ([scenario_source, scenario_source, scenario_source].foldl
        (OlapTableSinkV2Operator.sink (fun _ => false)) ⟨[]⟩).can_write = true :=
  ⟨fun _ _ => rfl, by decide, rfl⟩

end doris
